import Mathlib

/-!
Verification of the coin_tracker client core: the project store
(`src/projects.rs`) and the API client / session layer (`src/client.rs`).

Modelling choices:
* `export::Project` (the opaque domain payload) is modelled as a wrapper
  around a `Nat`; the code never inspects it, only stores and replaces it.
* `Uuid::now_v7()` and `Utc::now()` are modelled by a fresh-id counter
  `next_id` threaded through the store: each `Project::new` consumes the
  counter, which captures the guarantee the code relies on (freshly
  generated ids never collide with existing ones).
* A Rust `panic!` / `.unwrap()` failure is modelled by `Option`:
  `apply_update` returns `none` exactly when the Rust code would panic.
* The asynchronous completion closure of `Client::fetch_json` is modelled
  as a state transformer polymorphic in the state, so the same definition
  can be instantiated with a call-counting log (callback-contract claims)
  and with the application context (session-store claims).
-/

/-- Model of `export::Project`, the opaque project payload. -/
structure ExportProject where
  payload : Nat
  deriving DecidableEq, Repr

/-- Model of `export::Project::default()`. -/
def ExportProject.default : ExportProject := ⟨0⟩

/-- Local project (`struct Project` in `src/projects.rs`). -/
structure Project where
  is_owned : Bool
  is_public : Bool
  data : ExportProject
  id : Nat
  name : String
  created_at : Nat
  deriving DecidableEq, Repr

/-- `Project::new` (`src/projects.rs:380`): owned, not public, default data,
fresh id (`Uuid::now_v7()`), creation time (`Utc::now()`); both time-ordered
values are modelled by the fresh counter value. -/
def Project.new (name : String) (fresh : Nat) : Project :=
  { is_owned := true
    is_public := false
    data := ExportProject.default
    id := fresh
    name := name
    created_at := fresh }

/-- The mutation command type (`enum Msg` in `src/projects.rs`). -/
inductive Msg where
  | New (name : String) (data : Option ExportProject)
  | UpdateData (data : ExportProject)
  | Select (id : Nat)
  | Rename (name : String)
  | TogglePublic
  | Delete
  deriving DecidableEq, Repr

/-- The project store (`struct Projects`): the project collection, the id of
the open project, and the fresh-id supply. UI-only fields (window flags,
modal input buffers, the channel endpoints) carry no store state and are
omitted. -/
structure Projects where
  projects : List Project
  open_project : Nat
  next_id : Nat
  deriving DecidableEq, Repr

/-- `Projects::new` (`src/projects.rs:26`): one default project, open. -/
def Projects.new : Projects :=
  { projects := [Project.new "Unnamed" 0]
    open_project := (Project.new "Unnamed" 0).id
    next_id := 1 }

/-- Apply `f` to the first list element satisfying `pred`, leaving the rest
unchanged; `none` when no element matches. This is the
`iter().position(...)` + index-update pattern of `Projects::with_current`,
where `none` is the `.unwrap()` panic. -/
def updateFirst (pred : Project → Bool) (f : Project → Project) :
    List Project → Option (List Project)
  | [] => none
  | p :: ps =>
    if pred p then some (f p :: ps)
    else (updateFirst pred f ps).map (fun ps2 => p :: ps2)

/-- `Projects::with_current` (`src/projects.rs:46`): mutate the project whose
id is `open_project`; panics (`none`) when no project has that id. -/
def Projects.with_current (s : Projects) (f : Project → Project) :
    Option Projects :=
  (updateFirst (fun p => p.id == s.open_project) f s.projects).map
    (fun ps => { s with projects := ps })

/-- The `Msg::New` branch of `apply_update`: build a fresh project, override
its data when an initial payload is given, open it, push it. Factored out
because the `Msg::Delete` branch re-enters it. -/
def Projects.apply_new (s : Projects) (name : String)
    (data : Option ExportProject) : Projects :=
  let p0 := Project.new name s.next_id
  let p := match data with
    | some d => { p0 with data := d }
    | none => p0
  { s with
    open_project := p.id
    projects := s.projects ++ [p]
    next_id := s.next_id + 1 }

/-- `Projects::apply_update` (`src/projects.rs:63`). `none` models a panic
(the `.unwrap()` inside `with_current`). `Msg::Delete` retains the projects
whose id differs from the open one, then selects the first remaining one,
or re-enters the `Msg::New` branch with name "Unnamed" when none remain. -/
def Projects.apply_update (s : Projects) (msg : Msg) : Option Projects :=
  match msg with
  | .New name data => some (s.apply_new name data)
  | .UpdateData data => s.with_current (fun p => { p with data := data })
  | .Select id => some { s with open_project := id }
  | .Rename name => s.with_current (fun p => { p with name := name })
  | .TogglePublic => s.with_current (fun p => { p with is_public := !p.is_public })
  | .Delete =>
    let s1 := { s with
      projects := s.projects.filter (fun p => p.id != s.open_project) }
    match s1.projects.head? with
    | some p => some { s1 with open_project := p.id }
    | none => some (s1.apply_new "Unnamed" none)

/-- Apply a sequence of commands in order; `none` as soon as one panics. -/
def applyAll (s : Projects) : List Msg → Option Projects
  | [] => some s
  | m :: ms =>
    match s.apply_update m with
    | some s2 => applyAll s2 ms
    | none => none

/-- The store invariant of the spec: the collection is non-empty and the
open id names an existing entry. -/
def Projects.inv (s : Projects) : Prop :=
  s.projects ≠ [] ∧ s.open_project ∈ s.projects.map Project.id

instance (s : Projects) : Decidable s.inv := by
  unfold Projects.inv
  infer_instance

/-- A command is well-formed for a store when any id it references is the id
of some entry of the collection (the spec's "ids referenced by commands are
produced by the store itself"; the UI only ever sends `Msg::Select` with an
id read from the collection). -/
def Msg.ok (s : Projects) : Msg → Prop
  | .Select id => id ∈ s.projects.map Project.id
  | _ => True

instance (s : Projects) (m : Msg) : Decidable (m.ok s) := by
  cases m <;> (unfold Msg.ok; infer_instance)

/-- States reachable from the initial store by well-formed, non-panicking
commands. -/
inductive Reachable : Projects → Prop where
  | init : Reachable Projects.new
  | step {s s2 : Projects} {m : Msg} : Reachable s → m.ok s →
      s.apply_update m = some s2 → Reachable s2

/-! ## The API client and session layer (`src/client.rs`) -/

/-- `struct Session`: the opaque session token. -/
structure Session where
  id : String
  deriving DecidableEq, Repr

/-- `struct UserData`: the authenticated identity. -/
structure UserData where
  email : String
  id : Nat
  session : Session
  deriving DecidableEq, Repr

/-- `struct Client`: the session store, holding at most one identity. -/
structure Client where
  user_data : Option UserData
  deriving DecidableEq, Repr

/-- `Client::new` (`src/client.rs:50`). -/
def Client.new : Client := { user_data := none }

/-- The pieces of the egui `Context` the client core reads and writes: the
persisted `Client` blob, the loading counter, and the error-notification
sink (title, detail pairs, in emission order). -/
structure Ctx where
  client : Client
  loading : Nat
  notifications : List (String × String)
  deriving DecidableEq, Repr

/-- `Notifications::error`: append a user-visible error notification. -/
def Ctx.notifyError (c : Ctx) (title detail : String) : Ctx :=
  { c with notifications := c.notifications ++ [(title, detail)] }

/-- `Loading::start_loading`: bump the in-flight request counter. -/
def Ctx.startLoading (c : Ctx) : Ctx :=
  { c with loading := c.loading + 1 }

/-- `Loading::loading_done`: drop the in-flight request counter. -/
def Ctx.loadingDone (c : Ctx) : Ctx :=
  { c with loading := c.loading - 1 }

/-- `Client::modify` (`src/client.rs:63`): load the persisted blob, edit it,
store it back. -/
def Ctx.modify (c : Ctx) (f : Client → Client) : Ctx :=
  { c with client := f c.client }

/-- An HTTP request as built by `post_json` / `get_json`: url plus a header
list (`ehttp::Request`; `headers.insert` appends a key, value pair). -/
structure Request where
  url : String
  headers : List (String × String)
  deriving DecidableEq, Repr

/-- Outcome of the transport: a connection-level error, or an HTTP response
with a status code and an optional body text (`response.text()`). -/
inductive FetchResponse where
  | transportErr (err : String)
  | http (status : Nat) (body : Option String)
  deriving DecidableEq, Repr

/-- Synchronous part of `Client::fetch_json` (`src/client.rs:311`): bump the
loading counter and, when the session store holds an identity, attach its
token as the `Session` header of the outgoing request. -/
def fetch_json_issue (c : Ctx) (req : Request) : Ctx × Request :=
  let c2 := c.startLoading
  match c2.client.user_data with
  | some ud =>
    (c2, { req with headers := req.headers ++ [("Session", ud.session.id)] })
  | none => (c2, req)

/-- Completion closure of `Client::fetch_json` (`src/client.rs:331`),
polymorphic in the state the callbacks act on. `decode` models
`serde_json::from_str` for the expected type `O`. Runs `on_done`, then
`loading_done`, then dispatches on the outcome; the local `error` helper
emits a notification and then runs `on_error`. -/
def fetch_json_complete {σ : Type} {O : Type} (decode : String → Option O)
    (on_done : σ → σ) (on_success : O → σ → σ) (on_error : σ → σ)
    (notify_error : σ → String → String → σ) (loading_done : σ → σ)
    (resp : FetchResponse) (st : σ) : σ :=
  let st2 := loading_done (on_done st)
  let error := fun (err : String) (s : σ) =>
    on_error (notify_error s "Api request failed." err)
  match resp with
  | .transportErr err => error err st2
  | .http status body =>
    if status == 200 then
      match body with
      | some text =>
        match decode text with
        | some v => on_success v st2
        | none => error "Could not decode Api response" st2
      | none => error "Response was empty." st2
    else error (body.getD "") st2

/-- The successful-decode view of a response: the decoded value when the
status is 200 and the body is present and decodes, `none` otherwise. -/
def respSuccess {O : Type} (decode : String → Option O) :
    FetchResponse → Option O
  | .http status (some text) => if status == 200 then decode text else none
  | _ => none

/-- Counts how often each completion callback has been invoked. -/
structure CallLog where
  done : Nat
  success : Nat
  errors : Nat
  deriving DecidableEq, Repr

/-- Run the completion closure with callbacks that count their invocations,
starting from all-zero counts. -/
def fetch_log {O : Type} (decode : String → Option O)
    (resp : FetchResponse) : CallLog :=
  fetch_json_complete decode
    (fun l => { l with done := l.done + 1 })
    (fun _ l => { l with success := l.success + 1 })
    (fun l => { l with errors := l.errors + 1 })
    (fun l _ _ => l)
    (fun l => l)
    resp
    { done := 0, success := 0, errors := 0 }

/-- The decoded shape of the `user/create` and `user/login` responses
(`struct Response` in `src/client.rs`). -/
structure LoginResponse where
  user_id : Nat
  session_id : String
  deriving DecidableEq, Repr

/-- Store effect of the `on_success` closure shared by `Client::signup` and
`Client::login`: replace the stored identity with the email of the request
and the user id and session of the response. -/
def login_on_success (email : String) (r : LoginResponse) (c : Ctx) : Ctx :=
  c.modify (fun cl =>
    { cl with
      user_data := some
        { email := email, id := r.user_id, session := { id := r.session_id } } })

/-- Completion of `Client::login` (`src/client.rs:117`): `on_done` and
`on_error` only invoke the caller's continuation (no store effect);
`on_success` replaces the identity. -/
def login_complete (email : String) (decode : String → Option LoginResponse)
    (resp : FetchResponse) (c : Ctx) : Ctx :=
  fetch_json_complete decode
    (fun x => x)
    (login_on_success email)
    (fun x => x)
    Ctx.notifyError Ctx.loadingDone resp c

/-- Completion of `Client::signup` (`src/client.rs:73`): identical store
behaviour to `login_complete` (the endpoint differs, not the callbacks). -/
def signup_complete (email : String) (decode : String → Option LoginResponse)
    (resp : FetchResponse) (c : Ctx) : Ctx :=
  fetch_json_complete decode
    (fun x => x)
    (login_on_success email)
    (fun x => x)
    Ctx.notifyError Ctx.loadingDone resp c

/-- Completion of `Client::logout` (`src/client.rs:160`): the `on_done`
callback clears the stored identity; `on_success` and `on_error` do
nothing to the store. -/
def logout_complete (decode : String → Option Unit)
    (resp : FetchResponse) (c : Ctx) : Ctx :=
  fetch_json_complete decode
    (fun x => x.modify (fun cl => { cl with user_data := none }))
    (fun _ x => x)
    (fun x => x)
    Ctx.notifyError Ctx.loadingDone resp c

/-! ## Concrete inputs used by the witnesses -/

/-- A concrete authenticated identity. -/
def demoIdentity : UserData :=
  { email := "user@example.com", id := 7, session := { id := "tok" } }

/-- A concrete context holding an identity. -/
def demoCtx : Ctx :=
  { client := { user_data := some demoIdentity }
    loading := 0
    notifications := [] }

/-- A concrete request without headers. -/
def demoReq : Request := { url := "projects", headers := [] }

/-- A concrete project with id 0. -/
def demoA : Project := Project.new "A" 0

/-- A concrete project with id 1. -/
def demoB : Project := Project.new "B" 1

/-- A concrete two-project store with `demoA` open. -/
def demoStore : Projects :=
  { projects := [demoA, demoB], open_project := demoA.id, next_id := 2 }

/-! ## Theorems -/

theorem updateFirst_map_id {pred : Project → Bool} {f : Project → Project}
    (hf : ∀ p, (f p).id = p.id) :
    ∀ {l l' : List Project}, updateFirst pred f l = some l' →
      l'.map Project.id = l.map Project.id := by
  intro l
  induction l with
  | nil => intro l' h; simp [updateFirst] at h
  | cons p ps ih =>
    intro l' h
    by_cases hp : pred p
    · simp [updateFirst, hp] at h
      rw [← h]
      simp [hf]
    · simp [updateFirst, hp] at h
      obtain ⟨ps2, hps2, rfl⟩ := h
      simp [ih hps2]

theorem updateFirst_isSome {pred : Project → Bool} {f : Project → Project} :
    ∀ {l : List Project}, l.any pred = true → (updateFirst pred f l).isSome := by
  intro l
  induction l with
  | nil => intro h; simp at h
  | cons p ps ih =>
    intro h
    by_cases hp : pred p
    · simp [updateFirst, hp]
    · rw [List.any_cons] at h
      rcases Bool.or_eq_true_iff.mp h with h | h
      · exact absurd h hp
      · simp [updateFirst, hp, Option.isSome_map]
        exact ih h

theorem updateFirst_then {pred : Project → Bool} {f g : Project → Project}
    (hf : ∀ p, pred p = true → pred (f p) = true) :
    ∀ {l l' : List Project}, updateFirst pred f l = some l' →
      updateFirst pred g l' = updateFirst pred (fun p => g (f p)) l := by
  intro l
  induction l with
  | nil => intro l' h; simp [updateFirst] at h
  | cons p ps ih =>
    intro l' h
    by_cases hp : pred p
    · simp [updateFirst, hp] at h
      rw [← h]
      simp [updateFirst, hp, hf p hp]
    · simp [updateFirst, hp] at h
      obtain ⟨ps2, hps2, rfl⟩ := h
      simp [updateFirst, hp, ih hps2]

theorem updateFirst_self {pred : Project → Bool} {f : Project → Project}
    (hf : ∀ p, f p = p) :
    ∀ {l : List Project}, l.any pred = true → updateFirst pred f l = some l := by
  intro l
  induction l with
  | nil => intro h; simp at h
  | cons p ps ih =>
    intro h
    by_cases hp : pred p
    · simp [updateFirst, hp, hf]
    · rw [List.any_cons] at h
      rcases Bool.or_eq_true_iff.mp h with h | h
      · exact absurd h hp
      · simp [updateFirst, hp, ih h]

theorem with_current_eq {s : Projects} {f : Project → Project} {s2 : Projects}
    (h : s.with_current f = some s2) :
    ∃ l', updateFirst (fun p => p.id == s.open_project) f s.projects = some l' ∧
      s2 = { s with projects := l' } := by
  unfold Projects.with_current at h
  cases hr : updateFirst (fun p => p.id == s.open_project) f s.projects with
  | none => rw [hr] at h; simp at h
  | some l' =>
    rw [hr] at h
    simp at h
    exact ⟨l', rfl, h.symm⟩

theorem with_current_inv {s s2 : Projects} {f : Project → Project}
    (hf : ∀ p, (f p).id = p.id) (hinv : s.inv)
    (h : s.with_current f = some s2) : s2.inv := by
  obtain ⟨l', hl', rfl⟩ := with_current_eq h
  have hmap := updateFirst_map_id hf hl'
  obtain ⟨hne, hmem⟩ := hinv
  constructor
  · intro hnil
    apply hne
    simp only at hnil
    have : s.projects.map Project.id = [] := by
      rw [← hmap, hnil]
      simp
    simpa using this
  · simpa [hmap] using hmem

theorem apply_new_eq (s : Projects) (name : String)
    (data : Option ExportProject) :
    ∃ p : Project,
      s.apply_new name data =
        { s with
          open_project := p.id
          projects := s.projects ++ [p]
          next_id := s.next_id + 1 } ∧
      p.id = s.next_id ∧ p.name = name ∧ p.is_owned = true ∧
      p.is_public = false ∧ (data = none → p.data = ExportProject.default) := by
  cases data with
  | none =>
    exact ⟨Project.new name s.next_id, rfl, rfl, rfl, rfl, rfl, fun _ => rfl⟩
  | some d =>
    refine ⟨{ Project.new name s.next_id with data := d }, rfl, rfl, rfl, rfl,
      rfl, ?_⟩
    intro h
    exact Option.noConfusion h

theorem with_current_ne_nil {s s2 : Projects} {f : Project → Project}
    (hf : ∀ p, (f p).id = p.id) (h : s.projects ≠ [])
    (hw : s.with_current f = some s2) : s2.projects ≠ [] := by
  obtain ⟨l', hl', rfl⟩ := with_current_eq hw
  have hmap := updateFirst_map_id hf hl'
  intro hnil
  simp only at hnil
  apply h
  have : s.projects.map Project.id = [] := by
    rw [← hmap, hnil]
    simp
  simpa using this

theorem inv_preserved {s s2 : Projects} {m : Msg} (hinv : s.inv)
    (hok : m.ok s) (hstep : s.apply_update m = some s2) : s2.inv := by
  cases m with
  | New name data =>
    simp only [Projects.apply_update, Option.some_inj] at hstep
    obtain ⟨p, heq, -⟩ := apply_new_eq s name data
    rw [← hstep, heq]
    exact ⟨by simp, by simp⟩
  | UpdateData data =>
    simp only [Projects.apply_update] at hstep
    refine with_current_inv ?_ hinv hstep
    intro p
    rfl
  | Select id =>
    simp only [Projects.apply_update, Option.some_inj] at hstep
    simp only [Msg.ok] at hok
    rw [← hstep]
    exact ⟨hinv.1, hok⟩
  | Rename name =>
    simp only [Projects.apply_update] at hstep
    refine with_current_inv ?_ hinv hstep
    intro p
    rfl
  | TogglePublic =>
    simp only [Projects.apply_update] at hstep
    refine with_current_inv ?_ hinv hstep
    intro p
    rfl
  | Delete =>
    simp only [Projects.apply_update] at hstep
    cases hf : s.projects.filter (fun p => p.id != s.open_project) with
    | nil =>
      rw [hf] at hstep
      simp only [List.head?_nil, Option.some_inj] at hstep
      obtain ⟨p, heq, -⟩ :=
        apply_new_eq { s with projects := ([] : List Project) } "Unnamed" none
      rw [← hstep, heq]
      exact ⟨by simp, by simp⟩
    | cons q qs =>
      rw [hf] at hstep
      simp only [List.head?_cons, Option.some_inj] at hstep
      rw [← hstep]
      exact ⟨by simp, by simp⟩

theorem step_ne_nil {s s2 : Projects} {m : Msg} (h : s.projects ≠ [])
    (hstep : s.apply_update m = some s2) : s2.projects ≠ [] := by
  cases m with
  | New name data =>
    simp only [Projects.apply_update, Option.some_inj] at hstep
    obtain ⟨p, heq, -⟩ := apply_new_eq s name data
    rw [← hstep, heq]
    simp
  | UpdateData data =>
    simp only [Projects.apply_update] at hstep
    refine with_current_ne_nil ?_ h hstep
    intro p
    rfl
  | Select id =>
    simp only [Projects.apply_update, Option.some_inj] at hstep
    rw [← hstep]
    exact h
  | Rename name =>
    simp only [Projects.apply_update] at hstep
    refine with_current_ne_nil ?_ h hstep
    intro p
    rfl
  | TogglePublic =>
    simp only [Projects.apply_update] at hstep
    refine with_current_ne_nil ?_ h hstep
    intro p
    rfl
  | Delete =>
    simp only [Projects.apply_update] at hstep
    cases hf : s.projects.filter (fun p => p.id != s.open_project) with
    | nil =>
      rw [hf] at hstep
      simp only [List.head?_nil, Option.some_inj] at hstep
      obtain ⟨p, heq, -⟩ :=
        apply_new_eq { s with projects := ([] : List Project) } "Unnamed" none
      rw [← hstep, heq]
      simp
    | cons q qs =>
      rw [hf] at hstep
      simp only [List.head?_cons, Option.some_inj] at hstep
      rw [← hstep]
      simp

theorem applyAll_ne_nil : ∀ {msgs : List Msg} {s s2 : Projects},
    s.projects ≠ [] → applyAll s msgs = some s2 → s2.projects ≠ [] := by
  intro msgs
  induction msgs with
  | nil =>
    intro s s2 h hall
    simp only [applyAll, Option.some_inj] at hall
    rw [← hall]
    exact h
  | cons m ms ih =>
    intro s s2 h hall
    unfold applyAll at hall
    cases hstep : s.apply_update m with
    | none => rw [hstep] at hall; simp at hall
    | some s1 =>
      rw [hstep] at hall
      exact ih (step_ne_nil h hstep) hall

/-- Claim C1, counterexample: the claim quantifies over every sequence of
commands, but `Msg::Select` assigns the open id unconditionally, so
selecting the id 5 — which no project of the initial store has — yields a
store whose open id names no entry. -/
theorem C1_counterexample :
    applyAll Projects.new [Msg.Select 5] =
      some { projects := [Project.new "Unnamed" 0], open_project := 5,
             next_id := 1 } ∧
    5 ∉ ([Project.new "Unnamed" 0].map Project.id) := by
  constructor
  · rfl
  · decide

/-- Claim C1 (amended): for every sequence of commands applied from the
initial store, the collection is non-empty after every non-panicking step;
and the open id names an existing entry in every state reachable by
commands whose `Select` ids name existing entries (as every command the UI
produces does). -/
theorem C1_store_invariant :
    (∀ (msgs : List Msg) (s2 : Projects),
      applyAll Projects.new msgs = some s2 → s2.projects ≠ []) ∧
    (∀ s : Projects, Reachable s → s.inv) := by
  constructor
  · intro msgs s2 h
    exact applyAll_ne_nil (by simp [Projects.new]) h
  · intro s hr
    induction hr with
    | init => exact ⟨by simp [Projects.new], by simp [Projects.new, Project.new]⟩
    | step hr hok hstep ih => exact inv_preserved ih hok hstep

/-- Witness for C1 at the empty command sequence and the initial store. -/
theorem C1_store_invariant_witness :
    Projects.new.projects ≠ [] ∧ Projects.new.inv :=
  ⟨C1_store_invariant.1 [] Projects.new rfl,
   C1_store_invariant.2 Projects.new Reachable.init⟩

/-- Claim C3, counterexample: applying `Select` with the id 5, which no
project of the initial store has, is not a no-op — it changes the open id
to 5. -/
theorem C3_counterexample :
    5 ∉ Projects.new.projects.map Project.id ∧
    Projects.new.apply_update (Msg.Select 5) ≠ some Projects.new := by
  constructor
  · decide
  · decide

/-- Claim C3 (amended): `Select` sets the open id to the given id
unconditionally — whether or not a project with that id exists — and
changes nothing else (collection and fresh-id supply are untouched); in
particular when the id does exist only the open id changes. -/
theorem C3_select_unconditional (s : Projects) (id : Nat) :
    s.apply_update (Msg.Select id) = some { s with open_project := id } :=
  rfl

/-- Claim C4, counterexample: from the initial store, `Select` with the
nonexistent id 5 followed by `Rename` panics (the `unwrap` in
`with_current` fails), modelled by `none`. -/
theorem C4_counterexample :
    applyAll Projects.new [Msg.Select 5, Msg.Rename "x"] = none := by
  decide

/-- Claim C4 (amended): `apply_update` never panics on a store whose open
id names an existing entry — which every state reachable by store-produced
ids satisfies (C1); but a `Select` carrying an id not in the collection
leaves a store on which the commands that target the current project
panic. -/
theorem C4_no_panic (s : Projects) (m : Msg)
    (h : s.open_project ∈ s.projects.map Project.id) :
    (s.apply_update m).isSome := by
  have hany : s.projects.any (fun p => p.id == s.open_project) = true := by
    rw [List.any_eq_true]
    obtain ⟨p, hp, hid⟩ := List.mem_map.mp h
    exact ⟨p, hp, by simp [hid]⟩
  have hwc : ∀ f : Project → Project, (s.with_current f).isSome := by
    intro f
    unfold Projects.with_current
    cases hr : updateFirst (fun p => p.id == s.open_project) f s.projects with
    | none =>
      have h2 : (updateFirst (fun p => p.id == s.open_project) f
          s.projects).isSome = true :=
        updateFirst_isSome hany
      rw [hr] at h2
      simp at h2
    | some l => simp
  cases m with
  | New name data => simp [Projects.apply_update]
  | UpdateData data => exact hwc _
  | Select id => simp [Projects.apply_update]
  | Rename name => exact hwc _
  | TogglePublic => exact hwc _
  | Delete =>
    simp only [Projects.apply_update]
    cases hf : s.projects.filter (fun p => p.id != s.open_project) with
    | nil => simp
    | cons q qs => simp

/-- Witness for C4 at the initial store and a `Rename` command. -/
theorem C4_no_panic_witness :
    (Projects.new.apply_update (Msg.Rename "x")).isSome :=
  C4_no_panic Projects.new (Msg.Rename "x") (by decide)

theorem applyAll_cons {s s1 : Projects} {m : Msg} {ms : List Msg}
    (h : s.apply_update m = some s1) : applyAll s (m :: ms) = applyAll s1 ms := by
  show (match s.apply_update m with
    | some s2 => applyAll s2 ms
    | none => none) = applyAll s1 ms
  rw [h]

/-- Claim C9: renaming acts on the open project only and touches only its
name: with project `a` open, `Rename "Foo"`, then `Select b.id`, then
`Rename "Bar"` yields `a` named "Foo", `b` named "Bar", every other project
and every other field (including each project's id, data, flags and the
fresh-id supply) exactly as before. -/
theorem C9_rename_frame (s : Projects) (a b : Project) (rest : List Project)
    (hproj : s.projects = a :: b :: rest)
    (hopen : s.open_project = a.id)
    (hab : a.id ≠ b.id) :
    applyAll s [Msg.Rename "Foo", Msg.Select b.id, Msg.Rename "Bar"] =
      some { projects :=
               { a with name := "Foo" } :: { b with name := "Bar" } :: rest
             open_project := b.id
             next_id := s.next_id } := by
  have h1 : (a.id == b.id) = false := by simp [hab]
  have e1 : s.apply_update (Msg.Rename "Foo") =
      some { s with projects := { a with name := "Foo" } :: b :: rest } := by
    simp only [Projects.apply_update, Projects.with_current, hproj, hopen,
      updateFirst, beq_self_eq_true, if_true]
    rfl
  have e2 : ({ s with projects := { a with name := "Foo" } :: b :: rest }
        : Projects).apply_update (Msg.Select b.id) =
      some { s with
        projects := { a with name := "Foo" } :: b :: rest
        open_project := b.id } := rfl
  have e3 : ({ s with
        projects := { a with name := "Foo" } :: b :: rest
        open_project := b.id } : Projects).apply_update (Msg.Rename "Bar") =
      some { s with
        projects := { a with name := "Foo" } :: { b with name := "Bar" } :: rest
        open_project := b.id } := by
    simp only [Projects.apply_update, Projects.with_current, updateFirst,
      beq_self_eq_true, if_true]
    have ha' : (({ a with name := "Foo" } : Project).id == b.id) = false := h1
    rw [ha']
    simp
  rw [applyAll_cons e1, applyAll_cons e2, applyAll_cons e3]
  rfl

/-- Witness for C9 at a concrete two-project store. -/
theorem C9_rename_frame_witness :
    applyAll demoStore [Msg.Rename "Foo", Msg.Select demoB.id, Msg.Rename "Bar"] =
      some { projects :=
               { demoA with name := "Foo" } :: { demoB with name := "Bar" } :: []
             open_project := demoB.id
             next_id := demoStore.next_id } :=
  C9_rename_frame demoStore demoA demoB [] rfl rfl (by decide)

/-- Claim C10: with the open id naming an existing entry, `TogglePublic`
applied twice with no intervening command returns the store to exactly its
previous state. -/
theorem C10_toggle_involution (s : Projects)
    (h : s.open_project ∈ s.projects.map Project.id) :
    applyAll s [Msg.TogglePublic, Msg.TogglePublic] = some s := by
  have hany : s.projects.any (fun p => p.id == s.open_project) = true := by
    rw [List.any_eq_true]
    obtain ⟨p, hp, hid⟩ := List.mem_map.mp h
    exact ⟨p, hp, by simp [hid]⟩
  have htt : ∀ p : Project,
      ((fun q : Project => { q with is_public := !q.is_public })
        ((fun q : Project => { q with is_public := !q.is_public }) p)) = p := by
    intro p
    cases p
    simp
  have hsome : (updateFirst (fun p => p.id == s.open_project)
      (fun p => { p with is_public := !p.is_public }) s.projects).isSome = true :=
    updateFirst_isSome hany
  cases hu1 : updateFirst (fun p => p.id == s.open_project)
      (fun p => { p with is_public := !p.is_public }) s.projects with
  | none =>
    rw [hu1] at hsome
    simp at hsome
  | some l1 =>
    have hcomp : updateFirst (fun p => p.id == s.open_project)
        (fun p => { p with is_public := !p.is_public }) l1 =
        updateFirst (fun p => p.id == s.open_project)
          (fun p => ((fun q : Project => { q with is_public := !q.is_public })
            ((fun q : Project => { q with is_public := !q.is_public }) p)))
          s.projects :=
      updateFirst_then (fun p hp => by simpa using hp) hu1
    have hid2 : updateFirst (fun p => p.id == s.open_project)
        (fun p => ((fun q : Project => { q with is_public := !q.is_public })
          ((fun q : Project => { q with is_public := !q.is_public }) p)))
        s.projects = some s.projects :=
      updateFirst_self htt hany
    have hfin : updateFirst (fun p => p.id == s.open_project)
        (fun p => { p with is_public := !p.is_public }) l1 = some s.projects :=
      hcomp.trans hid2
    have e1 : s.apply_update Msg.TogglePublic =
        some { s with projects := l1 } := by
      show (updateFirst (fun p => p.id == s.open_project)
          (fun p => { p with is_public := !p.is_public }) s.projects).map
          (fun ps => ({ s with projects := ps } : Projects)) =
        some { s with projects := l1 }
      rw [hu1]
      rfl
    have e2 : ({ s with projects := l1 } : Projects).apply_update
        Msg.TogglePublic = some s := by
      show (updateFirst (fun p => p.id == s.open_project)
          (fun p => { p with is_public := !p.is_public }) l1).map
          (fun ps => ({ s with projects := ps } : Projects)) = some s
      rw [hfin]
      rfl
    rw [applyAll_cons e1, applyAll_cons e2]
    rfl

/-- Witness for C10 at the initial store. -/
theorem C10_toggle_involution_witness :
    applyAll Projects.new [Msg.TogglePublic, Msg.TogglePublic] =
      some Projects.new :=
  C10_toggle_involution Projects.new (by decide)

/-- Claim C5: on a store whose project ids are all below the fresh-id
supply and whose open id names an existing entry, `Delete` removes the open
project; when projects remain the first remaining one (in insertion order)
becomes open; otherwise a freshly synthesized default "Unnamed" project is
the sole project and is open, and its id is new. In particular, deleting
from a one-project store leaves exactly one project whose id differs from
the deleted one. -/
theorem C5_delete_behaviour (s : Projects)
    (hfresh : ∀ p ∈ s.projects, p.id < s.next_id)
    (hopen : s.open_project ∈ s.projects.map Project.id) :
    ∃ s2, s.apply_update Msg.Delete = some s2 ∧
      s.open_project ∉ s2.projects.map Project.id ∧
      (s.projects.filter (fun p => p.id != s.open_project) = [] →
        ∃ q, s2.projects = [q] ∧ s2.open_project = q.id ∧
          q.name = "Unnamed" ∧ q.is_owned = true ∧ q.is_public = false ∧
          q.data = ExportProject.default ∧
          q.id ∉ s.projects.map Project.id) ∧
      (∀ q qs, s.projects.filter (fun p => p.id != s.open_project) = q :: qs →
        s2.projects = q :: qs ∧ s2.open_project = q.id) ∧
      (s.projects.length = 1 →
        s2.projects.length = 1 ∧
        s2.open_project ∉ s.projects.map Project.id) := by
  have hlt : s.open_project < s.next_id := by
    obtain ⟨p, hp, hid⟩ := List.mem_map.mp hopen
    rw [← hid]
    exact hfresh p hp
  have hnewmem : s.next_id ∉ s.projects.map Project.id := by
    intro hmem
    obtain ⟨p, hp, hid⟩ := List.mem_map.mp hmem
    exact lt_irrefl s.next_id (hid ▸ hfresh p hp)
  cases hfilter : s.projects.filter (fun p => p.id != s.open_project) with
  | nil =>
    refine ⟨{ projects := [Project.new "Unnamed" s.next_id]
              open_project := s.next_id
              next_id := s.next_id + 1 }, ?_, ?_, ?_, ?_, ?_⟩
    · simp [Projects.apply_update, hfilter, Projects.apply_new, Project.new]
    · simp [Project.new]
      exact Nat.ne_of_lt hlt
    · intro _
      exact ⟨Project.new "Unnamed" s.next_id, rfl, rfl, rfl, rfl, rfl, rfl,
        hnewmem⟩
    · intro q qs hq
      exact absurd hq (by simp)
    · intro _
      exact ⟨rfl, hnewmem⟩
  | cons q qs =>
    have hqmem : s.open_project ∉ (q :: qs).map Project.id := by
      intro hmem
      obtain ⟨p, hp, hid⟩ := List.mem_map.mp hmem
      have hpf : p ∈ s.projects.filter (fun p => p.id != s.open_project) := by
        rw [hfilter]
        exact hp
      have h2 := (List.mem_filter.mp hpf).2
      simp at h2
      exact h2 hid
    refine ⟨{ projects := q :: qs
              open_project := q.id
              next_id := s.next_id }, ?_, ?_, ?_, ?_, ?_⟩
    · simp [Projects.apply_update, hfilter]
    · exact hqmem
    · intro h0
      exact absurd h0 (by simp)
    · intro q' qs' hq
      injection hq with h1 h2
      subst h1
      subst h2
      exact ⟨rfl, rfl⟩
    · intro hlen
      exfalso
      obtain ⟨p, hps⟩ : ∃ p, s.projects = [p] := by
        cases hps : s.projects with
        | nil => rw [hps] at hlen; simp at hlen
        | cons p ps =>
          rw [hps] at hlen
          simp at hlen
          exact ⟨p, by rw [hlen]⟩
      rw [hps] at hopen
      simp at hopen
      rw [hps] at hfilter
      simp [hopen] at hfilter

/-- Witness for C5 at the initial one-project store: deleting its sole
project synthesizes a fresh default one. -/
theorem C5_delete_behaviour_witness :
    ∃ s2, Projects.new.apply_update Msg.Delete = some s2 ∧
      Projects.new.open_project ∉ s2.projects.map Project.id ∧
      (Projects.new.projects.filter
          (fun p => p.id != Projects.new.open_project) = [] →
        ∃ q, s2.projects = [q] ∧ s2.open_project = q.id ∧
          q.name = "Unnamed" ∧ q.is_owned = true ∧ q.is_public = false ∧
          q.data = ExportProject.default ∧
          q.id ∉ Projects.new.projects.map Project.id) ∧
      (∀ q qs, Projects.new.projects.filter
          (fun p => p.id != Projects.new.open_project) = q :: qs →
        s2.projects = q :: qs ∧ s2.open_project = q.id) ∧
      (Projects.new.projects.length = 1 →
        s2.projects.length = 1 ∧
        s2.open_project ∉ Projects.new.projects.map Project.id) :=
  C5_delete_behaviour Projects.new (by decide) (by decide)

/-- Claim C2: for every completed request issued through `fetch_json`,
`on_done` is invoked exactly once, exactly one of `on_success` and
`on_error` is invoked, and the successful one is `on_success` precisely
when the response is an HTTP 200 whose body is present and decodes to the
expected type — covering the four outcome cases (transport failure,
non-200 status, 200 with missing or undecodable body, 200 with a decodable
body). -/
theorem C2_callback_contract {O : Type} (decode : String → Option O)
    (resp : FetchResponse) :
    (fetch_log decode resp).done = 1 ∧
    (fetch_log decode resp).success + (fetch_log decode resp).errors = 1 ∧
    ((fetch_log decode resp).success = 1 ↔
      (respSuccess decode resp).isSome) := by
  cases resp with
  | transportErr err => simp [fetch_log, fetch_json_complete, respSuccess]
  | http status body =>
    by_cases h : status == 200
    · cases body with
      | none => simp [fetch_log, fetch_json_complete, respSuccess, h]
      | some text =>
        cases hd : decode text <;>
          simp [fetch_log, fetch_json_complete, respSuccess, h, hd]
    · cases body with
      | none => simp [fetch_log, fetch_json_complete, respSuccess, h]
      | some text => simp [fetch_log, fetch_json_complete, respSuccess, h]

/-- Claim C6: `logout` clears the session store unconditionally on
completion, whatever the response was (its `on_done` callback clears the
identity, and it runs on every completion path). -/
theorem C6_logout_clears (decode : String → Option Unit)
    (resp : FetchResponse) (c : Ctx) :
    (logout_complete decode resp c).client.user_data = none := by
  cases resp with
  | transportErr err =>
    simp [logout_complete, fetch_json_complete, Ctx.modify, Ctx.notifyError,
      Ctx.loadingDone]
  | http status body =>
    by_cases h : status == 200
    · cases body with
      | none =>
        simp [logout_complete, fetch_json_complete, Ctx.modify,
          Ctx.notifyError, Ctx.loadingDone, h]
      | some text =>
        cases hd : decode text <;>
          simp [logout_complete, fetch_json_complete, Ctx.modify,
            Ctx.notifyError, Ctx.loadingDone, h, hd]
    · cases body with
      | none =>
        simp [logout_complete, fetch_json_complete, Ctx.modify,
          Ctx.notifyError, Ctx.loadingDone, h]
      | some text =>
        simp [logout_complete, fetch_json_complete, Ctx.modify,
          Ctx.notifyError, Ctx.loadingDone, h]

/-- Claim C7: for `login` and `signup`, the stored identity after
completion is the new identity (request email, response user id, response
session) exactly when the response is a 200 whose body decodes; on every
failure path (transport failure, non-200 status, missing or undecodable
body) the stored identity is unchanged. -/
theorem C7_login_signup_identity (email : String)
    (decode : String → Option LoginResponse) (resp : FetchResponse)
    (c : Ctx) :
    (login_complete email decode resp c).client.user_data =
      (match respSuccess decode resp with
        | some r => some
            { email := email, id := r.user_id, session := { id := r.session_id } }
        | none => c.client.user_data) ∧
    (signup_complete email decode resp c).client.user_data =
      (match respSuccess decode resp with
        | some r => some
            { email := email, id := r.user_id, session := { id := r.session_id } }
        | none => c.client.user_data) := by
  cases resp with
  | transportErr err =>
    simp [login_complete, signup_complete, fetch_json_complete,
      login_on_success, respSuccess, Ctx.modify, Ctx.notifyError,
      Ctx.loadingDone]
  | http status body =>
    by_cases h : status == 200
    · cases body with
      | none =>
        simp [login_complete, signup_complete, fetch_json_complete,
          login_on_success, respSuccess, Ctx.modify, Ctx.notifyError,
          Ctx.loadingDone, h]
      | some text =>
        cases hd : decode text <;>
          simp [login_complete, signup_complete, fetch_json_complete,
            login_on_success, respSuccess, Ctx.modify, Ctx.notifyError,
            Ctx.loadingDone, h, hd]
    · cases body with
      | none =>
        simp [login_complete, signup_complete, fetch_json_complete,
          login_on_success, respSuccess, Ctx.modify, Ctx.notifyError,
          Ctx.loadingDone, h]
      | some text =>
        simp [login_complete, signup_complete, fetch_json_complete,
          login_on_success, respSuccess, Ctx.modify, Ctx.notifyError,
          Ctx.loadingDone, h]

/-- Claim C8: for a request that does not already carry a `Session` header,
issuing it through `fetch_json` attaches the stored session token as the
`Session` header when the session store holds an identity, and leaves the
request without any `Session` header when it holds none. -/
theorem C8_session_header (c : Ctx) (req : Request)
    (hno : ∀ kv ∈ req.headers, kv.1 ≠ "Session") :
    (∀ ud, c.client.user_data = some ud →
      ("Session", ud.session.id) ∈ (fetch_json_issue c req).2.headers) ∧
    (c.client.user_data = none →
      ∀ kv ∈ (fetch_json_issue c req).2.headers, kv.1 ≠ "Session") := by
  cases hud : c.client.user_data with
  | some ud => simp [fetch_json_issue, Ctx.startLoading, hud]
  | none =>
    refine ⟨by simp [hud], ?_⟩
    intro _
    simpa [fetch_json_issue, Ctx.startLoading, hud] using hno

/-- Witness for C8 at a concrete context and request: the issued request of
an authenticated context carries the token, and that of an anonymous
context carries no `Session` header. -/
theorem C8_session_header_witness :
    ((∀ ud, demoCtx.client.user_data = some ud →
      ("Session", ud.session.id) ∈ (fetch_json_issue demoCtx demoReq).2.headers) ∧
    (demoCtx.client.user_data = none →
      ∀ kv ∈ (fetch_json_issue demoCtx demoReq).2.headers, kv.1 ≠ "Session")) :=
  C8_session_header demoCtx demoReq (by simp [demoReq])
